import Mathlib

/-!
Verification of the `time-in` CLI (`time_in/__main__.py`) against its
natural-language specification.

Modelling conventions (shallow embedding of the Python source):

* A naive `datetime.datetime` is modelled by its wall-clock reading as an
  integer number of microseconds since the epoch 1970-01-01 00:00:00
  (type `ℤ`).  Python datetimes have microsecond resolution, hour
  boundaries fall uniformly every `3600 * 10^6` microseconds of naive
  time, and `replace(minute=0, second=0, microsecond=0)` is truncation to
  the current hour boundary.  Calendar fields (`minute`, `hour`, month,
  day, ...) are recovered with Euclidean division, which for the positive
  divisors used here agrees with Python's floor division.
* An aware datetime is represented by its wall-clock reading in its own
  zone.  `dt.astimezone(z)` then maps the naive reading `d` (interpreted
  in the local zone, offset `localOff` microseconds from UTC) to the
  reading `d - localOff + utcoff z` in zone `z`, and `_make_unaware`
  becomes the identity on the stored reading.  The per-zone UTC offsets
  at the reference instant enter the model as an arbitrary function
  `utcoff : String → ℤ`.
* The system timezone database (`zoneinfo`) is modelled as the list of
  its keys, `db : List String`; constructing `ZoneInfo(s)` succeeds
  exactly when `s ∈ db`.
* Python `float` offsets are modelled as exact rationals `ℚ`.  The
  offsets produced by the program are (micro)second quantities divided by
  3600, and the quarter-hour offsets of real timezones are dyadic, where
  binary floating point is exact, so no rounding behaviour is lost for
  the properties stated here.
* Fallible code (`raise click.BadParameter`, `raise ValueError`) is
  modelled with `Except String`; an uncaught exception makes the process
  exit non-zero and print no rows, captured by `exitCode`.
-/

namespace TimeIn

/-- Microseconds per hour (`timedelta(hours=1)`). -/
def microsPerHour : ℤ := 3600000000

/-- Microseconds per minute. -/
def microsPerMinute : ℤ := 60000000

/-- Microseconds per second. -/
def microsPerSecond : ℤ := 1000000

/-- Microseconds per day. -/
def microsPerDay : ℤ := 86400000000

/-- The `minute` field of a naive datetime given by its microsecond reading. -/
def minuteOf (t : ℤ) : ℕ := ((t / microsPerMinute) % 60).toNat

/-- The `second` field. -/
def secondOf (t : ℤ) : ℕ := ((t / microsPerSecond) % 60).toNat

/-- The `microsecond` field. -/
def microOf (t : ℤ) : ℕ := (t % microsPerSecond).toNat

/-- The `hour` field (clock hour, 0–23). -/
def hourOf (t : ℤ) : ℕ := ((t / microsPerHour) % 24).toNat

/-- Absolute index of the hour containing `t`: identifies both the calendar
day and the clock hour, so `hourIndex` unchanged means "same hour of the
same day". -/
def hourIndex (t : ℤ) : ℤ := t / microsPerHour

/-- Embedding of `dt.replace(minute=0, second=0, microsecond=0)`:
truncation to the enclosing hour boundary. -/
def truncHour (t : ℤ) : ℤ := t - t % microsPerHour

/-- The three rounding strategies accepted by the round option. -/
inductive Strategy where
  | up
  | down
  | nearest
deriving DecidableEq

/-- Embedding of `_round_to` (`__main__.py`, lines 68–79).  For `"up"` the
source adds `timedelta(hours=1)` and then truncates; `"nearest"`
delegates to `"up"` when `dt.minute >= 30`, else to `"down"` (the two
delegated calls are inlined here). -/
def round_to (dt : ℤ) (strategy : Strategy) : ℤ :=
  match strategy with
  | .up => truncHour (dt + microsPerHour)
  | .down => truncHour dt
  | .nearest =>
      if 30 ≤ minuteOf dt then truncHour (dt + microsPerHour) else truncHour dt

theorem minuteOf_truncHour (t : ℤ) : minuteOf (truncHour t) = 0 := by
  unfold minuteOf truncHour microsPerMinute microsPerHour
  omega

theorem secondOf_truncHour (t : ℤ) : secondOf (truncHour t) = 0 := by
  unfold secondOf truncHour microsPerSecond microsPerHour
  omega

theorem microOf_truncHour (t : ℤ) : microOf (truncHour t) = 0 := by
  unfold microOf truncHour microsPerSecond microsPerHour
  omega

theorem truncHour_truncHour (t : ℤ) : truncHour (truncHour t) = truncHour t := by
  unfold truncHour microsPerHour
  omega

theorem hourIndex_truncHour (t : ℤ) : hourIndex (truncHour t) = hourIndex t := by
  unfold hourIndex truncHour microsPerHour
  omega

theorem hourIndex_truncHour_add (t : ℤ) :
    hourIndex (truncHour (t + microsPerHour)) = hourIndex t + 1 := by
  unfold hourIndex truncHour microsPerHour
  omega

theorem lt_truncHour_add (t : ℤ) : t < truncHour (t + microsPerHour) := by
  unfold truncHour microsPerHour
  omega

theorem round_to_nearest_form (t : ℤ) : ∃ u, round_to t .nearest = truncHour u := by
  simp only [round_to]
  split
  · exact ⟨t + microsPerHour, rfl⟩
  · exact ⟨t, rfl⟩

/-- C3: rounding mode `down` zeroes the minute, second and sub-second
fields while keeping the datetime in the same hour of the same day; mode
`up` is exactly "advance by one hour, then truncate", lands in the
strictly next hour even when `t` is already on an hour boundary, and
zeroes the same fields; mode `nearest` behaves as `up` iff the source
minute is ≥ 30, else as `down`. -/
theorem C3_round_modes (t : ℤ) :
    minuteOf (round_to t .down) = 0
    ∧ secondOf (round_to t .down) = 0
    ∧ microOf (round_to t .down) = 0
    ∧ hourIndex (round_to t .down) = hourIndex t
    ∧ round_to t .up = round_to (t + microsPerHour) .down
    ∧ minuteOf (round_to t .up) = 0
    ∧ secondOf (round_to t .up) = 0
    ∧ microOf (round_to t .up) = 0
    ∧ hourIndex (round_to t .up) = hourIndex t + 1
    ∧ round_to t .nearest
        = (if 30 ≤ minuteOf t then round_to t .up else round_to t .down) := by
  refine ⟨?_, ?_, ?_, ?_, rfl, ?_, ?_, ?_, ?_, rfl⟩
  · exact minuteOf_truncHour t
  · exact secondOf_truncHour t
  · exact microOf_truncHour t
  · exact hourIndex_truncHour t
  · exact minuteOf_truncHour (t + microsPerHour)
  · exact secondOf_truncHour (t + microsPerHour)
  · exact microOf_truncHour (t + microsPerHour)
  · exact hourIndex_truncHour_add t

/-- C10: rounding modes `down` and `nearest` are idempotent (their result
always has minute, second and microsecond equal to 0), while `up` is
never a fixed point: `round_to t .up` is strictly later than `t` for
every `t`, including instants already on an hour boundary. -/
theorem C10_round_algebra (t : ℤ) :
    round_to (round_to t .down) .down = round_to t .down
    ∧ round_to (round_to t .nearest) .nearest = round_to t .nearest
    ∧ minuteOf (round_to t .down) = 0
    ∧ secondOf (round_to t .down) = 0
    ∧ microOf (round_to t .down) = 0
    ∧ minuteOf (round_to t .nearest) = 0
    ∧ secondOf (round_to t .nearest) = 0
    ∧ microOf (round_to t .nearest) = 0
    ∧ t < round_to t .up := by
  obtain ⟨u, hu⟩ := round_to_nearest_form t
  refine ⟨?_, ?_, ?_, ?_, ?_, ?_, ?_, ?_, ?_⟩
  · exact truncHour_truncHour t
  · rw [hu]
    show round_to (truncHour u) .nearest = truncHour u
    simp only [round_to, minuteOf_truncHour]
    simp [truncHour_truncHour]
  · exact minuteOf_truncHour t
  · exact secondOf_truncHour t
  · exact microOf_truncHour t
  · rw [hu]; exact minuteOf_truncHour u
  · rw [hu]; exact secondOf_truncHour u
  · rw [hu]; exact microOf_truncHour u
  · exact lt_truncHour_add t

theorem data_append (a b : String) : (a ++ b).data = a.data ++ b.data := by
  cases a
  cases b
  rfl

theorem digitChar_ne_dot (m : ℕ) (hm : m < 10) : Nat.digitChar m ≠ '.' := by
  revert hm
  revert m
  decide

theorem toDigitsCore_ne_dot (fuel : ℕ) :
    ∀ (n : ℕ) (ds : List Char), (∀ c ∈ ds, c ≠ '.') →
      ∀ c ∈ Nat.toDigitsCore 10 fuel n ds, c ≠ '.' := by
  induction fuel with
  | zero =>
      intro n ds hds c hc
      exact hds c hc
  | succ fuel ih =>
      intro n ds hds c hc
      simp only [Nat.toDigitsCore] at hc
      by_cases h0 : n / 10 = 0
      · rw [if_pos h0] at hc
        rcases List.mem_cons.mp hc with h | h
        · rw [h]; exact digitChar_ne_dot _ (Nat.mod_lt n (by omega))
        · exact hds c h
      · rw [if_neg h0] at hc
        refine ih (n / 10) (Nat.digitChar (n % 10) :: ds) ?_ c hc
        intro d hd
        rcases List.mem_cons.mp hd with h | h
        · rw [h]; exact digitChar_ne_dot _ (Nat.mod_lt n (by omega))
        · exact hds d h

theorem natRepr_ne_dot (n : ℕ) : ∀ c ∈ (Nat.repr n).data, c ≠ '.' := by
  intro c hc
  exact toDigitsCore_ne_dot (n + 1) n [] (by intro d hd; cases hd) c hc

theorem intRepr_ne_dot (i : ℤ) : ∀ c ∈ (Int.repr i).data, c ≠ '.' := by
  cases i with
  | ofNat m => exact natRepr_ne_dot m
  | negSucc m =>
      intro c hc
      rw [Int.repr, data_append] at hc
      rcases List.mem_append.mp hc with h | h
      · have hc' : c = '-' := by simpa using h
        rw [hc']
        decide
      · exact natRepr_ne_dot _ c h

theorem dropWhile_append_all {α : Type} {p : α → Bool} (xs ys : List α)
    (h : ∀ c ∈ xs, p c) : (xs ++ ys).dropWhile p = ys.dropWhile p := by
  induction xs with
  | nil => rfl
  | cons a xs ih =>
      simp only [List.cons_append, List.dropWhile_cons]
      rw [if_pos (h a (List.mem_cons_self a xs))]
      exact ih fun c hc => h c (List.mem_cons_of_mem a hc)

/-- Number of characters after the first decimal point of a rendered
number (0 when there is none). -/
def decimalsAfterPoint (s : String) : ℕ :=
  ((s.data.dropWhile fun c => c != '.').drop 1).length

theorem decimalsAfterPoint_of_no_dot (s : String) (h : ∀ c ∈ s.data, c ≠ '.') :
    decimalsAfterPoint s = 0 := by
  unfold decimalsAfterPoint
  have := dropWhile_append_all (p := fun c => c != '.') s.data [] ?_
  · rw [List.append_nil] at this
    rw [this]
    rfl
  · intro c hc
    simpa using h c hc

theorem decimalsAfterPoint_concat (a : String) (frac : List Char)
    (ha : ∀ c ∈ a.data, c ≠ '.') :
    decimalsAfterPoint (a ++ "." ++ String.mk frac) = frac.length := by
  unfold decimalsAfterPoint
  rw [data_append, data_append]
  rw [show ("." : String).data = ['.'] from rfl]
  rw [List.append_assoc]
  rw [dropWhile_append_all (p := fun c => c != '.') a.data _
        (by intro c hc; simpa using ha c hc)]
  rfl

/-- Floor of a rational, written out with Euclidean integer division so
witnesses evaluate by `decide`. -/
def ratFloor (x : ℚ) : ℤ := x.num / (x.den : ℤ)

/-- Round to the nearest integer, ties to even (the rounding used by
Python float formatting). -/
def roundHalfEven (x : ℚ) : ℤ :=
  let f : ℤ := ratFloor x
  let r : ℚ := x - (f : ℚ)
  if r < 1 / 2 then f
  else if 1 / 2 < r then f + 1
  else if f % 2 = 0 then f else f + 1

/-- Pad a digit string on the left with zeros up to width `k`. -/
def leftPadZeros (k : ℕ) (cs : List Char) : List Char :=
  List.replicate (k - cs.length) '0' ++ cs

theorem leftPadZeros_length (k : ℕ) (cs : List Char) (h : cs.length ≤ k) :
    (leftPadZeros k cs).length = k := by
  unfold leftPadZeros
  simp
  omega

/-- Embedding of Python fixed-point formatting of a float with
format spec `.1f` or `.2f`: round the magnitude to `prec` decimal places
(ties to even) and print it with exactly `prec` digits after the point,
keeping the sign of the input value. -/
def formatFixed (q : ℚ) (prec : ℕ) : String :=
  let a : ℕ := (roundHalfEven ((if q < 0 then -q else q) * 10 ^ prec)).toNat
  (if q < 0 then "-" else "")
    ++ Nat.repr (a / 10 ^ prec) ++ "."
    ++ String.mk (leftPadZeros prec (Nat.repr (a % 10 ^ prec)).data)

/-- Embedding of `_sign` (lines 54–55). -/
def sign (f : ℚ) : String := if 0 ≤ f then "+" else ""

/-- Embedding of `_display_timezone_diff` (lines 58–65): an integral
float is printed as `str(int(f))`; otherwise one decimal place when
`f * 10 % 1 == 0` (i.e. `f * 10` is an integer), else two; the result is
prefixed with `_sign(f)`. -/
def display_timezone_diff (fi : ℚ) : String :=
  if fi.den = 1 then sign fi ++ Int.repr fi.num
  else if (fi * 10).den = 1 then sign fi ++ formatFixed fi 1
  else sign fi ++ formatFixed fi 2

/-- The info column wraps the rendered diff in parentheses (lines 256 and
276 of the source). -/
def diffCell (q : ℚ) : String := "(" ++ display_timezone_diff q ++ ")"

theorem data_inj {s t : String} (h : s.data = t.data) : s = t := by
  cases s
  cases t
  exact congrArg String.mk h

theorem strAppendAssoc (a b c : String) : a ++ b ++ c = a ++ (b ++ c) := by
  apply data_inj
  simp [data_append]

theorem sign_ne_dot (q : ℚ) : ∀ c ∈ (sign q).data, c ≠ '.' := by
  unfold sign
  split
  · intro c hc; have : c = '+' := by simpa using hc
    rw [this]; decide
  · intro c hc; cases hc

theorem signNeg_ne_dot (q : ℚ) : ∀ c ∈ (if q < 0 then "-" else "" : String).data, c ≠ '.' := by
  split
  · intro c hc; have : c = '-' := by simpa using hc
    rw [this]; decide
  · intro c hc; cases hc

theorem repr_data_len_lt10 (m : ℕ) (h : m < 10) : (Nat.repr m).data.length = 1 := by
  revert h; revert m; decide

theorem repr_data_len_lt100 (m : ℕ) (h : m < 100) : (Nat.repr m).data.length ≤ 2 := by
  revert h; revert m; decide

theorem decimalsAfterPoint_sign_formatFixed (q : ℚ) (prec : ℕ)
    (hlen : (Nat.repr ((roundHalfEven ((if q < 0 then -q else q) * 10 ^ prec)).toNat
        % 10 ^ prec)).data.length ≤ prec) :
    decimalsAfterPoint (sign q ++ formatFixed q prec) = prec := by
  unfold decimalsAfterPoint formatFixed
  simp only [data_append, List.append_assoc]
  rw [← List.append_assoc, ← List.append_assoc]
  rw [dropWhile_append_all _ _ ?_]
  · rw [List.singleton_append, List.dropWhile_cons]
    rw [if_neg (by decide : ¬ ((('.' : Char) != '.') = true))]
    rw [List.drop_one, List.tail_cons]
    exact leftPadZeros_length prec _ hlen
  · intro c hc
    simp only [List.mem_append] at hc
    rcases hc with (h | h) | h
    · simpa using sign_ne_dot q c h
    · simpa using signNeg_ne_dot q c h
    · simpa using natRepr_ne_dot _ c h

attribute [local semireducible] Rat.mul Rat.inv Rat.add Rat.sub Rat.ofScientific

theorem formatFixed_neg_head (q : ℚ) (hq : q < 0) (prec : ℕ) :
    ∃ rest : String, formatFixed q prec = "-" ++ rest := by
  simp only [formatFixed, if_pos hq]
  exact ⟨_, rfl⟩

/-- C8: an integral offset renders as a bare signed integer with an
explicit plus sign for nonnegative values; a non-integral offset renders
with one decimal place exactly when ten times the value is an integer,
else with two; the first character is the sign; and the info column wraps
the rendered value in parentheses. -/
theorem C8_diff_format (q : ℚ) :
    decimalsAfterPoint (display_timezone_diff q)
        = (if q.den = 1 then 0 else if (q * 10).den = 1 then 1 else 2)
    ∧ (display_timezone_diff q).data.head? = some (if 0 ≤ q then '+' else '-')
    ∧ diffCell q = "(" ++ display_timezone_diff q ++ ")"
    ∧ display_timezone_diff 3 = "+3"
    ∧ display_timezone_diff (-5) = "-5"
    ∧ display_timezone_diff 0 = "+0"
    ∧ display_timezone_diff (11 / 2) = "+5.5"
    ∧ display_timezone_diff (23 / 4) = "+5.75" := by
  refine ⟨?_, ?_, rfl, by decide, by decide, by decide, by decide, by decide⟩
  · by_cases h1 : q.den = 1
    · rw [if_pos h1]
      rw [show display_timezone_diff q = sign q ++ Int.repr q.num from by
        unfold display_timezone_diff; rw [if_pos h1]]
      apply decimalsAfterPoint_of_no_dot
      intro c hc
      rw [data_append] at hc
      rcases List.mem_append.mp hc with h | h
      · exact sign_ne_dot q c h
      · exact intRepr_ne_dot _ c h
    · rw [if_neg h1]
      by_cases h2 : (q * 10).den = 1
      · rw [if_pos h2]
        rw [show display_timezone_diff q = sign q ++ formatFixed q 1 from by
          unfold display_timezone_diff; rw [if_neg h1, if_pos h2]]
        apply decimalsAfterPoint_sign_formatFixed
        refine le_of_eq (repr_data_len_lt10 _ ?_)
        have := Nat.mod_lt ((roundHalfEven ((if q < 0 then -q else q) * 10 ^ 1)).toNat)
          (show 0 < 10 ^ 1 by norm_num)
        simpa using this
      · rw [if_neg h2]
        rw [show display_timezone_diff q = sign q ++ formatFixed q 2 from by
          unfold display_timezone_diff; rw [if_neg h1, if_neg h2]]
        apply decimalsAfterPoint_sign_formatFixed
        refine repr_data_len_lt100 _ ?_
        have := Nat.mod_lt ((roundHalfEven ((if q < 0 then -q else q) * 10 ^ 2)).toNat)
          (show 0 < 10 ^ 2 by norm_num)
        simpa using this
  · by_cases h0 : 0 ≤ q
    · rw [if_pos h0]
      have hs : sign q = "+" := by unfold sign; rw [if_pos h0]
      have : ∃ rest : String, display_timezone_diff q = "+" ++ rest := by
        unfold display_timezone_diff
        split
        · exact ⟨Int.repr q.num, by rw [hs]⟩
        · split
          · exact ⟨formatFixed q 1, by rw [hs]⟩
          · exact ⟨formatFixed q 2, by rw [hs]⟩
      obtain ⟨rest, hr⟩ := this
      rw [hr, data_append]
      rfl
    · rw [if_neg h0]
      have hs : sign q = "" := by unfold sign; rw [if_neg h0]
      have hq : q < 0 := lt_of_not_le h0
      have hex : ∃ rest : String, display_timezone_diff q = "" ++ ("-" ++ rest) := by
        unfold display_timezone_diff
        split
        · have hnum : q.num < 0 := by
            by_contra hn
            exact h0 (Rat.num_nonneg.mp (le_of_not_lt hn))
          obtain ⟨m, hm⟩ : ∃ m : ℕ, q.num = Int.negSucc m := by
            cases hn : q.num with
            | ofNat k =>
                rw [hn] at hnum
                exact absurd hnum (Int.not_lt.mpr (Int.ofNat_nonneg k))
            | negSucc m => exact ⟨m, rfl⟩
          refine ⟨Nat.repr (m + 1), ?_⟩
          rw [hs, hm]
          rfl
        · split
          · obtain ⟨rest, hrest⟩ := formatFixed_neg_head q hq 1
            exact ⟨rest, by rw [hs, hrest]⟩
          · obtain ⟨rest, hrest⟩ := formatFixed_neg_head q hq 2
            exact ⟨rest, by rw [hs, hrest]⟩
      obtain ⟨rest, hr⟩ := hex
      rw [hr, data_append, data_append]
      rfl

/-- Embedding of Python `str.strip()`: remove leading and trailing
whitespace. -/
def pyStrip (s : String) : String :=
  String.mk ((s.data.dropWhile Char.isWhitespace).reverse.dropWhile Char.isWhitespace).reverse

/-- Split a character list at its first colon, as `s.split(":", 1)` does
after the `":" in s` membership test: `none` when there is no colon. -/
def splitFirstColon : List Char → Option (List Char × List Char)
  | [] => none
  | c :: rest =>
      if c = ':' then some ([], rest)
      else
        match splitFirstColon rest with
        | none => none
        | some (a, b) => some (c :: a, b)

/-- Embedding of `_parse_timezone` (lines 36–47): try the identifier
against the timezone database as-is, then with a `US/` prefix, else fail
with a `ValueError`. -/
def parse_timezone (db : List String) (s : String) : Except String String :=
  if s ∈ db then .ok s
  else if ("US/" ++ s) ∈ db then .ok ("US/" ++ s)
  else .error ("failed to parse timezone: " ++ s)

/-- Embedding of the `TZWithName` named tuple (lines 89–91): a resolved
zone key plus an optional display name. -/
structure TZWithName where
  tz : String
  name : Option String
deriving DecidableEq

/-- Embedding of `TZWithName.from_str` (lines 93–99): if the token
contains a colon, split at the first one, strip both halves, resolve the
right part; otherwise resolve the whole token with no name. -/
def TZWithName.from_str (db : List String) (s : String) : Except String TZWithName :=
  match splitFirstColon s.data with
  | some (n, t) =>
      match parse_timezone db (pyStrip (String.mk t)) with
      | .ok z => .ok ⟨z, some (pyStrip (String.mk n))⟩
      | .error e => .error e
  | none =>
      match parse_timezone db s with
      | .ok z => .ok ⟨z, none⟩
      | .error e => .error e

/-- Embedding of the Python expression `p.name or str(p.tz)` (line 234):
`None` and the empty string are both falsy, so either falls back to the
zone's string form. -/
def pyOr (name : Option String) (dflt : String) : String :=
  match name with
  | none => dflt
  | some s => if s = "" then dflt else s

theorem string_mk_data (s : String) : String.mk s.data = s := by
  cases s
  rfl

theorem splitFirstColon_append (n z : List Char) (hn : ':' ∉ n) :
    splitFirstColon (n ++ ':' :: z) = some (n, z) := by
  induction n with
  | nil => simp [splitFirstColon]
  | cons c cs ih =>
      have hc : c ≠ ':' := fun h => hn (h ▸ List.mem_cons_self c cs)
      have hcs : ':' ∉ cs := fun h => hn (List.mem_cons_of_mem c h)
      simp [splitFirstColon, if_neg hc, ih hcs]

theorem splitFirstColon_none (z : List Char) (hz : ':' ∉ z) :
    splitFirstColon z = none := by
  induction z with
  | nil => rfl
  | cons c cs ih =>
      have hc : c ≠ ':' := fun h => hz (h ▸ List.mem_cons_self c cs)
      have hcs : ':' ∉ cs := fun h => hz (List.mem_cons_of_mem c h)
      simp only [splitFirstColon, if_neg hc, ih hcs]

/-- C6 (amended): a token containing a colon is split at its first colon,
the trimmed left part becomes the display name and the trimmed remainder
the zone identifier; for a valid zone the rendered label equals the name
provided the trimmed name is nonempty (an empty trimmed name is falsy in
Python and the label falls back to the zone's string form); a plain token
resolves with no name and its label is the zone's string form. -/
theorem C6_token_resolution (db : List String) (name z : String)
    (hzdb : z ∈ db) (hzc : ':' ∉ z.data) (hzs : pyStrip z = z)
    (hnc : ':' ∉ name.data) (hns : pyStrip name = name) (hne : name ≠ "") :
    TZWithName.from_str db (name ++ ":" ++ z) = .ok ⟨z, some name⟩
    ∧ pyOr (some name) z = name
    ∧ TZWithName.from_str db z = .ok ⟨z, none⟩
    ∧ pyOr none z = z := by
  refine ⟨?_, ?_, ?_, rfl⟩
  · unfold TZWithName.from_str
    have hdata : (name ++ ":" ++ z).data = name.data ++ ':' :: z.data := by
      rw [data_append, data_append]
      simp
    rw [hdata, splitFirstColon_append name.data z.data hnc]
    simp [string_mk_data, hzs, hns, parse_timezone, hzdb]
  · simp [pyOr, hne]
  · unfold TZWithName.from_str
    rw [splitFirstColon_none z.data hzc]
    simp [parse_timezone, hzdb]

theorem C6_token_resolution_witness :
    TZWithName.from_str ["UTC"] ("Home:UTC") = .ok ⟨"UTC", some ("Home")⟩ :=
  (C6_token_resolution ["UTC"] ("Home") ("UTC") (by decide) (by decide) (by decide)
    (by decide) (by decide) (by decide)).1

/-- C6 counterexample: resolving the token `":UTC"` (display name before
the colon is empty) yields the rendered label `"UTC"`, not the empty
display name the claim predicts, because `p.name or str(p.tz)` treats the
empty string as falsy. -/
theorem C6_counterexample :
    (TZWithName.from_str ["UTC"] (":UTC")).map (fun p => pyOr p.name p.tz)
        = .ok ("UTC")
    ∧ ("UTC" : String) ≠ ("" : String) := by
  refine ⟨rfl, by decide⟩

/-- Embedding of the `TZInfo` named tuple (lines 121–124): projected
wall-clock datetime, display label, and offset in fractional hours. -/
structure TZInfo where
  dt : ℤ
  tzname : String
  tzdiff : ℚ
deriving DecidableEq

/-- Embedding of the `dates` list (lines 222–225): the local projection
first when `print_local`, then the reference instant re-projected into
each picked zone (`date_.astimezone(p.tz)`), each represented by its
wall-clock reading. -/
def wallDates (printLocal : Bool) (date_ localOff : ℤ) (utcoff : String → ℤ)
    (picked : List TZWithName) : List ℤ :=
  (if printLocal then [date_] else [])
    ++ picked.map fun p => date_ - localOff + utcoff p.tz

/-- Embedding of the `tznames` list (lines 228–234): the local label
(zone name or overridable placeholder) when `print_local`, then
`p.name or str(p.tz)` for each picked zone. -/
def tznamesOf (printLocal printLocalTz : Bool) (localName hereLabel : String)
    (picked : List TZWithName) : List String :=
  (if printLocal then [if printLocalTz then localName else hereLabel] else [])
    ++ picked.map fun p => pyOr p.name p.tz

/-- Embedding of the `diffs` list (lines 238–241): naive subtraction from
`dates[0]`, `total_seconds()` (microseconds over 10^6) divided by 3600. -/
def diffsOf (dates : List ℤ) : List ℚ :=
  dates.map fun dt => (((dt - dates.headD 0 : ℤ) : ℚ) / 1000000) / 3600

/-- Embedding of the `tzinfos` list (lines 243–245): zip of dates, names
and diffs. -/
def buildTZInfos (printLocal printLocalTz : Bool) (localName hereLabel : String)
    (date_ localOff : ℤ) (utcoff : String → ℤ) (picked : List TZWithName) : List TZInfo :=
  (((wallDates printLocal date_ localOff utcoff picked).zip
      (tznamesOf printLocal printLocalTz localName hereLabel picked)).zip
    (diffsOf (wallDates printLocal date_ localOff utcoff picked))).map
    fun x => ⟨x.1.1, x.1.2, x.2⟩

/-- Embedding of lines 247–248: Python `list.sort` is a stable ascending
sort by the key `tzinfo.tzdiff`; any stable sort is extensionally the
same function, so `List.mergeSort` with the corresponding `le` test
embeds it. -/
def sortStep (sortDiffs : Bool) (l : List TZInfo) : List TZInfo :=
  if sortDiffs then l.mergeSort (fun a b => decide (a.tzdiff ≤ b.tzdiff)) else l

theorem wallDates_length (printLocal : Bool) (date_ localOff : ℤ)
    (utcoff : String → ℤ) (picked : List TZWithName) :
    (wallDates printLocal date_ localOff utcoff picked).length
      = (if printLocal then 1 else 0) + picked.length := by
  cases printLocal <;> simp [wallDates, Nat.add_comm]

theorem tznamesOf_length (printLocal printLocalTz : Bool) (localName hereLabel : String)
    (picked : List TZWithName) :
    (tznamesOf printLocal printLocalTz localName hereLabel picked).length
      = (if printLocal then 1 else 0) + picked.length := by
  cases printLocal <;> simp [tznamesOf, Nat.add_comm]

theorem buildTZInfos_length (printLocal printLocalTz : Bool) (localName hereLabel : String)
    (date_ localOff : ℤ) (utcoff : String → ℤ) (picked : List TZWithName) :
    (buildTZInfos printLocal printLocalTz localName hereLabel date_ localOff utcoff picked).length
      = (if printLocal then 1 else 0) + picked.length := by
  simp [buildTZInfos, diffsOf, wallDates_length, tznamesOf_length]

theorem zip_map_diff (f : ℤ → ℚ) : ∀ (dates : List ℤ) (names : List String),
    ∀ e ∈ ((dates.zip names).zip (dates.map f)).map
        (fun x => TZInfo.mk x.1.1 x.1.2 x.2),
      e.tzdiff = f e.dt := by
  intro dates
  induction dates with
  | nil =>
      intro names e he
      simp at he
  | cons d ds ih =>
      intro names e he
      cases names with
      | nil => simp at he
      | cons nm ns =>
          simp only [List.zip_cons_cons, List.map_cons, List.mem_cons] at he
          rcases he with rfl | he
          · rfl
          · exact ih ns e he

theorem buildTZInfos_mem (printLocal printLocalTz : Bool) (localName hereLabel : String)
    (date_ localOff : ℤ) (utcoff : String → ℤ) (picked : List TZWithName) :
    ∀ e ∈ buildTZInfos printLocal printLocalTz localName hereLabel date_ localOff utcoff picked,
      e.tzdiff = (((e.dt
          - (wallDates printLocal date_ localOff utcoff picked).headD 0 : ℤ) : ℚ)
            / 1000000) / 3600 := by
  intro e he
  exact zip_map_diff _ (wallDates printLocal date_ localOff utcoff picked)
    (tznamesOf printLocal printLocalTz localName hereLabel picked) e he

theorem buildTZInfos_headD (printLocal printLocalTz : Bool) (localName hereLabel : String)
    (date_ localOff : ℤ) (utcoff : String → ℤ) (picked : List TZWithName)
    (hp : picked ≠ []) :
    ((buildTZInfos printLocal printLocalTz localName hereLabel date_ localOff utcoff
        picked).headD ⟨0, "", 0⟩).dt
      = (wallDates printLocal date_ localOff utcoff picked).headD 0
    ∧ ((buildTZInfos printLocal printLocalTz localName hereLabel date_ localOff utcoff
        picked).headD ⟨0, "", 0⟩).tzdiff = 0 := by
  cases picked with
  | nil => exact absurd rfl hp
  | cons p ps =>
      cases printLocal <;>
        simp [buildTZInfos, wallDates, tznamesOf, diffsOf]

/-- C1: the offset of every rendered entry equals the naive wall-clock
difference in signed fractional hours between that entry's projected
datetime and entry 0's projected datetime; entry 0 is the local
projection when include-local is enabled, else the first user-supplied
zone's projection, and entry 0's pre-sort offset is exactly 0. -/
theorem C1_offsets (printLocal printLocalTz : Bool) (localName hereLabel : String)
    (date_ localOff : ℤ) (utcoff : String → ℤ) (picked : List TZWithName)
    (hp : picked ≠ []) :
    (buildTZInfos printLocal printLocalTz localName hereLabel date_ localOff utcoff
        picked).length = (if printLocal then 1 else 0) + picked.length
    ∧ ((buildTZInfos printLocal printLocalTz localName hereLabel date_ localOff utcoff
        picked).headD ⟨0, "", 0⟩).dt
      = (if printLocal then date_
          else date_ - localOff + utcoff ((picked.headD ⟨"", none⟩).tz))
    ∧ ((buildTZInfos printLocal printLocalTz localName hereLabel date_ localOff utcoff
        picked).headD ⟨0, "", 0⟩).tzdiff = 0
    ∧ ∀ e ∈ buildTZInfos printLocal printLocalTz localName hereLabel date_ localOff utcoff
        picked,
        e.tzdiff = (((e.dt
            - ((buildTZInfos printLocal printLocalTz localName hereLabel date_ localOff utcoff
                picked).headD ⟨0, "", 0⟩).dt : ℤ) : ℚ) / 1000000) / 3600 := by
  obtain ⟨hdt, hd0⟩ := buildTZInfos_headD printLocal printLocalTz localName hereLabel date_
    localOff utcoff picked hp
  refine ⟨buildTZInfos_length _ _ _ _ _ _ _ _, ?_, hd0, ?_⟩
  · rw [hdt]
    cases picked with
    | nil => exact absurd rfl hp
    | cons p ps => cases printLocal <;> simp [wallDates]
  · intro e he
    rw [hdt]
    exact buildTZInfos_mem printLocal printLocalTz localName hereLabel date_ localOff utcoff
      picked e he

theorem C1_offsets_witness :
    ((buildTZInfos true false ("LocalZone") ("Here") 0 0 (fun _ => 0)
        [⟨"UTC", none⟩]).headD ⟨0, "", 0⟩).tzdiff = 0 :=
  (C1_offsets true false ("LocalZone") ("Here") 0 0 (fun _ => 0)
    [⟨"UTC", none⟩] (by decide)).2.2.1

/-- C2: with the sort-diffs flag the entries are stably sorted by
ascending offset (a sorted output that is a permutation of the input, in
which any input pair already ordered by offset — in particular any tied
pair — keeps its relative order); sorting happens after offset
computation, so every sorted entry still carries the offset computed
against the pre-sort entry 0, and without the flag the order is
untouched. -/
theorem C2_sort_diffs (printLocal printLocalTz : Bool) (localName hereLabel : String)
    (date_ localOff : ℤ) (utcoff : String → ℤ) (picked : List TZWithName)
    (hp : picked ≠ []) :
    (sortStep true (buildTZInfos printLocal printLocalTz localName hereLabel date_ localOff
        utcoff picked)).Perm
      (buildTZInfos printLocal printLocalTz localName hereLabel date_ localOff utcoff picked)
    ∧ (sortStep true (buildTZInfos printLocal printLocalTz localName hereLabel date_ localOff
        utcoff picked)).Pairwise (fun a b => a.tzdiff ≤ b.tzdiff)
    ∧ (∀ a b : TZInfo,
        [a, b].Sublist (buildTZInfos printLocal printLocalTz localName hereLabel date_ localOff
          utcoff picked) →
        a.tzdiff ≤ b.tzdiff →
        [a, b].Sublist (sortStep true (buildTZInfos printLocal printLocalTz localName hereLabel
          date_ localOff utcoff picked)))
    ∧ (∀ e ∈ sortStep true (buildTZInfos printLocal printLocalTz localName hereLabel date_
          localOff utcoff picked),
        e.tzdiff = (((e.dt
            - ((buildTZInfos printLocal printLocalTz localName hereLabel date_ localOff utcoff
                picked).headD ⟨0, "", 0⟩).dt : ℤ) : ℚ) / 1000000) / 3600)
    ∧ sortStep false (buildTZInfos printLocal printLocalTz localName hereLabel date_ localOff
        utcoff picked)
      = buildTZInfos printLocal printLocalTz localName hereLabel date_ localOff utcoff picked := by
  have htrans : ∀ a b c : TZInfo, (fun a b => decide (a.tzdiff ≤ b.tzdiff)) a b →
      (fun a b => decide (a.tzdiff ≤ b.tzdiff)) b c →
      (fun a b => decide (a.tzdiff ≤ b.tzdiff)) a c := by
    intro a b c hab hbc
    simp only [decide_eq_true_eq] at hab hbc ⊢
    exact le_trans hab hbc
  have htotal : ∀ a b : TZInfo, ((fun a b => decide (a.tzdiff ≤ b.tzdiff)) a b
      || (fun a b => decide (a.tzdiff ≤ b.tzdiff)) b a) := by
    intro a b
    simp only [Bool.or_eq_true, decide_eq_true_eq]
    exact le_total a.tzdiff b.tzdiff
  obtain ⟨hdt, _⟩ := buildTZInfos_headD printLocal printLocalTz localName hereLabel date_
    localOff utcoff picked hp
  refine ⟨?_, ?_, ?_, ?_, rfl⟩
  · exact List.mergeSort_perm _ _
  · have := List.sorted_mergeSort htrans htotal
      (buildTZInfos printLocal printLocalTz localName hereLabel date_ localOff utcoff picked)
    exact this.imp fun h => of_decide_eq_true h
  · intro a b hsub hle
    exact List.pair_sublist_mergeSort htrans htotal (decide_eq_true hle) hsub
  · intro e he
    rw [hdt]
    have he' : e ∈ buildTZInfos printLocal printLocalTz localName hereLabel date_ localOff
        utcoff picked := List.mem_mergeSort.mp he
    exact buildTZInfos_mem printLocal printLocalTz localName hereLabel date_ localOff utcoff
      picked e he'

theorem C2_sort_diffs_witness :
    (sortStep true (buildTZInfos true false ("L") ("Here") 0 0 (fun _ => 3600000000)
        [⟨"UTC", none⟩])).Perm
      (buildTZInfos true false ("L") ("Here") 0 0 (fun _ => 3600000000) [⟨"UTC", none⟩]) :=
  (C2_sort_diffs true false ("L") ("Here") 0 0 (fun _ => 3600000000)
    [⟨"UTC", none⟩] (by decide)).1

/-- Two-digit zero-padded rendering used by strftime codes `%H`, `%M`
and `%d`. -/
def pad2 (n : ℕ) : String := if n < 10 then "0" ++ Nat.repr n else Nat.repr n

/-- Proleptic-Gregorian civil date (year, month, day) from days since
1970-01-01, the standard civil-from-days algorithm; embeds the calendar
fields Python's `strftime` reads off a datetime. -/
def civilFromDays (z0 : ℤ) : ℤ × ℕ × ℕ :=
  let z := z0 + 719468
  let era : ℤ := z / 146097
  let doe : ℕ := (z - era * 146097).toNat
  let yoe : ℕ := (doe - doe / 1460 + doe / 36524 - doe / 146096) / 365
  let doy : ℕ := doe - (365 * yoe + yoe / 4 - yoe / 100)
  let mp : ℕ := (5 * doy + 2) / 153
  let d : ℕ := doy - (153 * mp + 2) / 5 + 1
  let m : ℕ := if mp < 10 then mp + 3 else mp - 9
  (era * 400 + yoe + (if m ≤ 2 then 1 else 0), m, d)

/-- Month abbreviations of strftime `%b` in the C locale. -/
def monthAbbrev (m : ℕ) : String :=
  ["Jan", "Feb", "Mar", "Apr", "May", "Jun",
   "Jul", "Aug", "Sep", "Oct", "Nov", "Dec"].getD (m - 1) ("?")

/-- Embedding of `tzinfo.dt.strftime("[%b %d]")` (line 257). -/
def dateBracket (t : ℤ) : String :=
  "[" ++ monthAbbrev (civilFromDays (t / microsPerDay)).2.1 ++ " "
    ++ pad2 (civilFromDays (t / microsPerDay)).2.2 ++ "]"

/-- Embedding of the hour-column rendering (lines 258–263): bare
zero-padded hour (`"%H"`) when the shifted datetime's minute is zero,
else `"%H:%M"`. -/
def hourCell (t : ℤ) : String :=
  if minuteOf t = 0 then pad2 (hourOf t)
  else pad2 (hourOf t) ++ ":" ++ pad2 (minuteOf t)

/-- One row of hour-strip mode (lines 252–264): the info prefix only when
`print_tz`, then one column per hour `hr` in `range(hours_)` at
`tzinfo.dt + timedelta(hours=hr)`. -/
def hourStripRow (printTz : Bool) (hours_ : ℕ) (info : TZInfo) : List String :=
  (if printTz then [info.tzname, diffCell info.tzdiff, dateBracket info.dt] else [])
    ++ (List.range hours_).map fun hr : ℕ => hourCell (info.dt + (hr : ℤ) * microsPerHour)

/-- One row of compact mode (lines 271–281); the strftime rendering of
the user-supplied format string is an external collaborator passed in as
`fmtCell`. -/
def compactRow (printTz : Bool) (fmtCell : ℤ → String) (info : TZInfo) : List String :=
  if printTz then [info.tzname, diffCell info.tzdiff, fmtCell info.dt]
  else [fmtCell info.dt]

theorem minuteOf_add_hours (t : ℤ) (k : ℕ) :
    minuteOf (t + (k : ℤ) * microsPerHour) = minuteOf t := by
  unfold minuteOf microsPerHour microsPerMinute
  have h1 : t + (k : ℤ) * 3600000000 = t + ((k : ℤ) * 60) * 60000000 := by ring
  rw [h1, Int.add_mul_ediv_right _ _ (by norm_num : (60000000 : ℤ) ≠ 0)]
  rw [Int.add_mul_emod_self]

theorem hourOf_lt (t : ℤ) : hourOf t < 24 := by
  unfold hourOf microsPerHour
  omega

theorem minuteOf_lt (t : ℤ) : minuteOf t < 60 := by
  unfold minuteOf microsPerMinute
  omega

theorem pad2_length (n : ℕ) (h : n < 60) : (pad2 n).length = 2 := by
  revert h
  revert n
  decide

/-- C5 (amended): in hour-strip mode with info display enabled (the
default), each row is the label, the parenthesised signed offset and the
bracketed month-day, followed by exactly N hour columns, one per
successive hour from the entry's projected instant; a column is the bare
two-digit hour exactly when the shifted minute is zero, and since adding
whole hours never changes the minute, a start minute of 0 makes all N
columns bare `HH` (two characters) and a nonzero start minute makes all N
columns `HH:MM` (five characters). -/
theorem C5_hour_strip (n : ℕ) (info : TZInfo) (_hn : 1 ≤ n) :
    hourStripRow true n info
      = [info.tzname, "(" ++ display_timezone_diff info.tzdiff ++ ")", dateBracket info.dt]
        ++ (List.range n).map (fun hr : ℕ => hourCell (info.dt + (hr : ℤ) * microsPerHour))
    ∧ (hourStripRow true n info).length = 3 + n
    ∧ (∀ hr : ℕ, hourCell (info.dt + (hr : ℤ) * microsPerHour)
        = if minuteOf info.dt = 0
          then pad2 (hourOf (info.dt + (hr : ℤ) * microsPerHour))
          else pad2 (hourOf (info.dt + (hr : ℤ) * microsPerHour)) ++ ":"
            ++ pad2 (minuteOf info.dt))
    ∧ (minuteOf info.dt = 0 →
        ∀ s ∈ (List.range n).map (fun hr : ℕ => hourCell (info.dt + (hr : ℤ) * microsPerHour)),
          s.length = 2)
    ∧ (minuteOf info.dt ≠ 0 →
        ∀ s ∈ (List.range n).map (fun hr : ℕ => hourCell (info.dt + (hr : ℤ) * microsPerHour)),
          s.length = 5) := by
  refine ⟨rfl, ?_, ?_, ?_, ?_⟩
  · unfold hourStripRow
    rw [List.length_append, List.length_map, List.length_range]
    rfl
  · intro hr
    unfold hourCell
    rw [minuteOf_add_hours]
  · intro h0 s hs
    obtain ⟨hr, hhr, rfl⟩ := List.mem_map.mp hs
    unfold hourCell
    rw [minuteOf_add_hours, h0]
    rw [if_pos rfl]
    exact pad2_length _ (lt_trans (hourOf_lt _) (by norm_num))
  · intro h0 s hs
    obtain ⟨hr, hhr, rfl⟩ := List.mem_map.mp hs
    unfold hourCell
    rw [minuteOf_add_hours]
    rw [if_neg h0]
    rw [String.length_append, String.length_append]
    rw [pad2_length _ (lt_trans (hourOf_lt _) (by norm_num))]
    rw [pad2_length _ (minuteOf_lt _)]
    rfl

theorem C5_hour_strip_witness :
    (hourStripRow true 3 ⟨0, ("UTC"), 0⟩).length = 3 + 3 :=
  (C5_hour_strip 3 ⟨0, ("UTC"), 0⟩ (by decide)).2.1

/-- C5 counterexample: with info display disabled (`--hide-info`) an
hour-strip row has no label, offset or date columns — for N = 2 the row
has 2 cells, not the 3 + 2 the claim asserts for every row. -/
theorem C5_counterexample :
    (hourStripRow false 2 ⟨0, ("UTC"), 0⟩).length = 2
    ∧ (hourStripRow false 2 ⟨0, ("UTC"), 0⟩).length ≠ 2 + 3 := by
  refine ⟨?_, ?_⟩ <;> decide

/-- The bias settings of the external free-text date parser; the source
always passes `PREFER_DATES_FROM: future` (line 111). -/
inductive DateBias where
  | past
  | currentPeriod
  | future
deriving DecidableEq

/-- Result of the external free-text date parser: a wall-clock reading
plus the parsed zone's UTC offset when the text carried explicit zone
information (`dt.tzinfo`), else `none`. -/
structure ParsedResult where
  wall : ℤ
  tzoff : Option ℤ
deriving DecidableEq

/-- Embedding of `_parse_dates` (lines 102–118): the literal `"now"`
resolves to the current instant; anything else goes to the external
parser with future bias; `None` is a fatal `BadParameter` naming the
string; otherwise a zone-less result is assumed local (`astimezone()`)
and the value is normalised to a naive local reading
(`datetime.fromtimestamp(dt.timestamp())`). -/
def parse_dates (nowDT : ℤ) (dparse : DateBias → String → Option ParsedResult)
    (localOff : ℤ) (value : String) : Except String ℤ :=
  if value = "now" then .ok nowDT
  else
    match dparse .future value with
    | none => .error ("failed to parse date: " ++ value)
    | some r => .ok (r.wall - r.tzoff.getD localOff + localOff)

/-- Embedding of the guard at lines 202–203, `if hours_ and hours_ < 1`:
Python truthiness makes `None` and `0` skip the guard. -/
def hoursGuardRaises (hours_ : Option ℤ) : Bool :=
  match hours_ with
  | none => false
  | some h => decide (h ≠ 0) && decide (h < 1)

/-- Embedding of the branch test `if hours_:` at line 250. -/
def pyTruthyInt (hours_ : Option ℤ) : Bool :=
  match hours_ with
  | none => false
  | some h => decide (h ≠ 0)

/-- Process exit status: an uncaught exception exits non-zero. -/
def exitCode {α : Type} (r : Except String α) : ℕ :=
  match r with
  | .ok _ => 0
  | .error _ => 1

/-- Embedding of the `tz` command body (lines 191–283), producing the
table rows it prints (or the error it dies with): hours guard, optional
rounding, token resolution (interactive picker result when no tokens),
projection and offsets, optional stable sort, then hour-strip or compact
rows. -/
def tzCommand (db : List String) (fmtCell : ℤ → String) (hours_ : Option ℤ)
    (date_ : ℤ) (printLocal printLocalTz printTz sortDiffs : Bool)
    (round_ : Option Strategy) (localName hereLabel : String)
    (localOff : ℤ) (utcoff : String → ℤ)
    (tzTokens : List String) (pickerResult : TZWithName) :
    Except String (List (List String)) :=
  if hoursGuardRaises hours_ then .error ("hours must be >= 1")
  else
    let date2 := match round_ with
      | none => date_
      | some r => round_to date_ r
    match (if tzTokens.isEmpty then .ok [pickerResult]
           else tzTokens.mapM (TZWithName.from_str db) : Except String (List TZWithName)) with
    | .error e => .error e
    | .ok picked =>
        let infos := sortStep sortDiffs
          (buildTZInfos printLocal printLocalTz localName hereLabel date2 localOff utcoff picked)
        if pyTruthyInt hours_ then
          .ok (infos.map (hourStripRow printTz (hours_.getD 0).toNat))
        else
          .ok (infos.map (compactRow printTz fmtCell))

/-- C9: `"now"` resolves to the current instant; any other string goes to
the external free-text parser with future bias; a parse failure is a
fatal usage error whose message names the offending string; a parsed
result with no explicit zone is assumed local and normalised to a naive
local reading (for a zone-less result, the naive reading itself). -/
theorem C9_parse_dates (nowDT : ℤ) (dparse : DateBias → String → Option ParsedResult)
    (localOff : ℤ) (value : String) :
    parse_dates nowDT dparse localOff ("now") = .ok nowDT
    ∧ (value ≠ "now" → dparse .future value = none →
        parse_dates nowDT dparse localOff value = .error ("failed to parse date: " ++ value))
    ∧ (value ≠ "now" → ∀ r, dparse .future value = some r →
        parse_dates nowDT dparse localOff value
          = .ok (r.wall - r.tzoff.getD localOff + localOff))
    ∧ (value ≠ "now" → ∀ r, dparse .future value = some r → r.tzoff = none →
        parse_dates nowDT dparse localOff value = .ok r.wall) := by
  refine ⟨by unfold parse_dates; rw [if_pos rfl], ?_, ?_, ?_⟩
  · intro hv hp
    unfold parse_dates
    rw [if_neg hv, hp]
  · intro hv r hp
    unfold parse_dates
    rw [if_neg hv, hp]
  · intro hv r hp hz
    unfold parse_dates
    rw [if_neg hv, hp]
    simp [hz]

theorem C9_parse_dates_witness :
    parse_dates 7 (fun _ s => if s = "tomorrow" then some ⟨5, none⟩ else none) 3 ("xyz")
      = .error ("failed to parse date: xyz") :=
  (C9_parse_dates 7 (fun _ s => if s = "tomorrow" then some ⟨5, none⟩ else none) 3
    ("xyz")).2.1 (by decide) (by decide)

/-- C4: the guard `if hours_ and hours_ < 1` does not fire on 0 because 0
is falsy in Python, so running with hours = 0 silently produces compact
rows instead of the fatal usage error the spec requires; a negative value
does raise it. -/
theorem C4_hours_zero_eval :
    hoursGuardRaises (some 0) = false
    ∧ tzCommand ["UTC"] (fun _ => ("T")) (some 0) 0 false false true false none ("L")
        ("Here") 0 (fun _ => 0) ["UTC"] ⟨"UTC", none⟩
      = .ok [[("UTC"), ("(+0)"), ("T")]]
    ∧ exitCode (tzCommand ["UTC"] (fun _ => ("T")) (some 0) 0 false false true false none
        ("L") ("Here") 0 (fun _ => 0) ["UTC"] ⟨"UTC", none⟩) = 0
    ∧ hoursGuardRaises (some (-1)) = true
    ∧ tzCommand ["UTC"] (fun _ => ("T")) (some (-1)) 0 false false true false none ("L")
        ("Here") 0 (fun _ => 0) ["UTC"] ⟨"UTC", none⟩
      = .error ("hours must be >= 1") := by
  refine ⟨rfl, rfl, rfl, rfl, rfl⟩

/-- C7: zone resolution tries the identifier as-is against the database,
then with a `US/` prefix; when neither resolves it fails with a parse
error, and a command invocation carrying such a token dies with that
error before producing any rows, exiting non-zero. -/
theorem C7_zone_resolution (db : List String) (s : String) :
    (s ∈ db → parse_timezone db s = .ok s)
    ∧ (s ∉ db → ("US/" ++ s) ∈ db → parse_timezone db s = .ok ("US/" ++ s))
    ∧ (s ∉ db → ("US/" ++ s) ∉ db →
        parse_timezone db s = .error ("failed to parse timezone: " ++ s)
        ∧ ∀ (fmtCell : ℤ → String) (hours_ : Option ℤ) (date_ : ℤ)
            (printLocal printLocalTz printTz sortDiffs : Bool) (round_ : Option Strategy)
            (localName hereLabel : String) (localOff : ℤ) (utcoff : String → ℤ)
            (pickerResult : TZWithName),
          hoursGuardRaises hours_ = false → ':' ∉ s.data →
          tzCommand db fmtCell hours_ date_ printLocal printLocalTz printTz sortDiffs round_
              localName hereLabel localOff utcoff [s] pickerResult
            = .error ("failed to parse timezone: " ++ s)
          ∧ exitCode (tzCommand db fmtCell hours_ date_ printLocal printLocalTz printTz
              sortDiffs round_ localName hereLabel localOff utcoff [s] pickerResult) = 1) := by
  refine ⟨?_, ?_, ?_⟩
  · intro h
    unfold parse_timezone
    rw [if_pos h]
  · intro h1 h2
    unfold parse_timezone
    rw [if_neg h1, if_pos h2]
  · intro h1 h2
    have hpt : parse_timezone db s = .error ("failed to parse timezone: " ++ s) := by
      unfold parse_timezone
      rw [if_neg h1, if_neg h2]
    refine ⟨hpt, ?_⟩
    intro fmtCell hours_ date_ printLocal printLocalTz printTz sortDiffs round_
      localName hereLabel localOff utcoff pickerResult hguard hcolon
    have hfs : TZWithName.from_str db s = .error ("failed to parse timezone: " ++ s) := by
      unfold TZWithName.from_str
      rw [splitFirstColon_none s.data hcolon, hpt]
    have hcmd : tzCommand db fmtCell hours_ date_ printLocal printLocalTz printTz sortDiffs
        round_ localName hereLabel localOff utcoff [s] pickerResult
        = .error ("failed to parse timezone: " ++ s) := by
      unfold tzCommand
      rw [hguard]
      simp only [Bool.false_eq_true, if_false, List.isEmpty_cons, List.mapM_cons,
        List.mapM_nil, hfs]
      rfl
    exact ⟨hcmd, by rw [hcmd]; rfl⟩

theorem C7_zone_resolution_witness :
    parse_timezone ["UTC", ("US/Pacific")] ("Mars/Colony1")
      = .error ("failed to parse timezone: Mars/Colony1")
    ∧ tzCommand ["UTC", ("US/Pacific")] (fun _ => ("T")) none 0 true false true false none
        ("L") ("Here") 0 (fun _ => 0) [("Mars/Colony1")] ⟨"UTC", none⟩
      = .error ("failed to parse timezone: Mars/Colony1") := by
  have h := (C7_zone_resolution ["UTC", ("US/Pacific")] ("Mars/Colony1")).2.2
    (by decide) (by decide)
  exact ⟨h.1, (h.2 (fun _ => ("T")) none 0 true false true false none ("L") ("Here") 0
    (fun _ => 0) ⟨"UTC", none⟩ (by decide) (by decide)).1⟩

end TimeIn
